import Mathlib

/-
Verification of the coq-lsp backend of `coq_serapy`
(`src/coq_serapy/lsp_backend.py`), as a shallow embedding.

The embedding models the state invariants and pure logic of
`CoqLSPyInstance`: the virtual-document line-ownership algorithm
(`_sentence_at_line`), the diagnostic drain and error classification
(`_checkError` / `_handleError`), the statement-sequence operations
(`addStmt_noupdate`, `cancelLastStmt`, `resetCommandState`), and the
goal-response parsing (`parseObligation` / `parseGoalResponse`).
Server interaction is modelled by passing the server's answers
(a goals response and the pending diagnostic batches) as explicit
arguments, and recording outgoing messages as an event trace.
Assertion failures of the Python code are modelled as `Option.none`
or a dedicated `assertFail` result constructor.
-/

namespace CoqLspy

/-! ## Python string primitives

The Python code uses `s.split("\n")`, `"sep".join(l)` and
`s.strip("\n")`.  We model them on `List Char` with structural
recursion so that they compute by `decide`/`rfl` and support
induction. -/

/-- Model of Python `list.split(c)` on character lists for a
single-character separator: `splitOnChar c l` cuts `l` at every
occurrence of `c`; it always returns at least one (possibly empty)
chunk, like Python `"".split` does. -/
def splitOnChar (c : Char) : List Char → List (List Char)
  | [] => [[]]
  | x :: xs =>
    match splitOnChar c xs with
    | [] => [[]]
    | r :: rs => if x == c then [] :: r :: rs else (x :: r) :: rs

/-- Model of Python `s.split("\n")`. -/
def pySplitNl (s : String) : List String :=
  (splitOnChar '\n' s.toList).map (fun cs => String.mk cs)

/-- Model of Python `sep.join(l)`. -/
def pyJoin (sep : String) : List String → String
  | [] => ""
  | [s] => s
  | s :: rest => s ++ sep ++ pyJoin sep rest

/-- Model of Python `s.strip("\n")`: removes newline characters from
BOTH ends of the string (leading and trailing), leaving internal
characters untouched. -/
def pyStripNl (s : String) : String :=
  String.mk (((s.toList.dropWhile (fun c => c == '\n')).reverse.dropWhile
    (fun c => c == '\n')).reverse)

/-- Model of Python `s.rstrip("\n")`: removes newline characters from
the trailing end only.  (Used to state the spec's wording of the
append operation; the source uses `strip`, not `rstrip`.) -/
def pyRstripNl (s : String) : String :=
  String.mk ((s.toList.reverse.dropWhile (fun c => c == '\n')).reverse)

/-- Model of `len(sentence.split("\n"))` from `_sentence_at_line`: the number of
newline-separated lines of a string (one more than its internal newline
count). -/
def lineCount (s : String) : Nat :=
  (pySplitNl s).length

/-! ## `_sentence_at_line` -/

/-- Loop of `CoqLSPyInstance._sentence_at_line`: walk the sentences
accumulating `cur_line += len(sentence.split("\n"))`; return the first
`(idx, sentence)` with `line < cur_line`.  Falling off the end is the
Python `assert False`, modelled as `none`. -/
def sentence_at_line_aux (line : Nat) : List String → Nat → Nat → Option (Nat × String)
  | [], _, _ => none
  | s :: rest, curLine, idx =>
    let cur := curLine + lineCount s
    if line < cur then some (idx, s)
    else sentence_at_line_aux line rest cur (idx + 1)

/-- Model of `CoqLSPyInstance._sentence_at_line` (0-based line numbering). -/
def sentence_at_line (sentences : List String) (line : Nat) : Option (Nat × String) :=
  sentence_at_line_aux line sentences 0 0

/-- Cumulative line count of the first `k` sentences. -/
def cumLines (sentences : List String) (k : Nat) : Nat :=
  ((sentences.take k).map lineCount).sum

theorem cumLines_nil (k : Nat) : cumLines [] k = 0 := by
  simp [cumLines]

theorem cumLines_zero (ss : List String) : cumLines ss 0 = 0 := by
  simp [cumLines]

theorem cumLines_cons_succ (s : String) (rest : List String) (k : Nat) :
    cumLines (s :: rest) (k + 1) = lineCount s + cumLines rest k := by
  simp [cumLines]

theorem cumLines_of_length_le (ss : List String) {k : Nat} (h : ss.length ≤ k) :
    cumLines ss k = cumLines ss ss.length := by
  unfold cumLines
  rw [List.take_of_length_le h, List.take_of_length_le (le_refl _)]

theorem sentence_at_line_aux_some_iff (ss : List String) (line : Nat) :
    ∀ (c i : Nat), c ≤ line → ∀ (k : Nat) (s : String),
    (sentence_at_line_aux line ss c i = some (k, s) ↔
      ∃ j, k = i + j ∧ c + cumLines ss j ≤ line ∧
        line < c + cumLines ss (j + 1) ∧ ss.getD j "" = s) := by
  induction ss with
  | nil =>
    intro c i hc k s
    simp only [sentence_at_line_aux, cumLines_nil]
    constructor
    · intro h; exact absurd h (by simp)
    · rintro ⟨j, rfl, h1, h2, _⟩; omega
  | cons hd rest ih =>
    intro c i hc k s
    simp only [sentence_at_line_aux]
    by_cases hlt : line < c + lineCount hd
    · simp only [if_pos hlt]
      constructor
      · intro h
        have hk : i = k ∧ hd = s := by
          have := Option.some.inj h
          exact ⟨(Prod.mk.injEq _ _ _ _ ▸ this).1, (Prod.mk.injEq _ _ _ _ ▸ this).2⟩
        refine ⟨0, by omega, ?_, ?_, ?_⟩
        · rw [cumLines_zero]; omega
        · rw [cumLines_cons_succ, cumLines_zero]; omega
        · simpa using hk.2
      · rintro ⟨j, rfl, h1, h2, hs⟩
        cases j with
        | zero =>
          simp only [List.getD_cons_zero] at hs
          simp [hs]
        | succ j' =>
          rw [cumLines_cons_succ] at h1
          omega
    · simp only [if_neg hlt]
      have hc' : c + lineCount hd ≤ line := by omega
      rw [ih (c + lineCount hd) (i + 1) hc' k s]
      constructor
      · rintro ⟨j', rfl, h1, h2, hs⟩
        refine ⟨j' + 1, by omega, ?_, ?_, ?_⟩
        · rw [cumLines_cons_succ]; omega
        · rw [cumLines_cons_succ]; omega
        · simpa using hs
      · rintro ⟨j, rfl, h1, h2, hs⟩
        cases j with
        | zero =>
          rw [cumLines_cons_succ, cumLines_zero] at h2
          omega
        | succ j' =>
          rw [cumLines_cons_succ] at h1 h2
          exact ⟨j', by omega, by omega, by omega, by simpa using hs⟩

theorem sentence_at_line_aux_none_iff (ss : List String) (line : Nat) :
    ∀ (c i : Nat), c ≤ line →
    (sentence_at_line_aux line ss c i = none ↔
      c + cumLines ss ss.length ≤ line) := by
  induction ss with
  | nil =>
    intro c i hc
    simp [sentence_at_line_aux, cumLines_nil]
    omega
  | cons hd rest ih =>
    intro c i hc
    simp only [sentence_at_line_aux]
    by_cases hlt : line < c + lineCount hd
    · simp only [if_pos hlt]
      constructor
      · intro h; exact absurd h (by simp)
      · intro h
        rw [List.length_cons, cumLines_cons_succ] at h
        omega
    · simp only [if_neg hlt]
      have hc' : c + lineCount hd ≤ line := by omega
      rw [ih (c + lineCount hd) (i + 1) hc']
      rw [List.length_cons, cumLines_cons_succ]
      omega

/-- Characterization of a successful `_sentence_at_line` lookup: the result
is the statement whose line-range (by cumulative line counts) contains the
queried line. -/
theorem sentence_at_line_some_iff (ss : List String) (line k : Nat) (s : String) :
    sentence_at_line ss line = some (k, s) ↔
      cumLines ss k ≤ line ∧ line < cumLines ss (k + 1) ∧ ss.getD k "" = s := by
  rw [sentence_at_line, sentence_at_line_aux_some_iff ss line 0 0 (Nat.zero_le _) k s]
  constructor
  · rintro ⟨j, rfl, h1, h2, hs⟩
    simp only [Nat.zero_add] at h1 h2 ⊢
    exact ⟨h1, h2, hs⟩
  · rintro ⟨h1, h2, hs⟩
    exact ⟨k, by omega, by simpa using h1, by simpa using h2, hs⟩

/-- Characterization of the `assert False` branch of `_sentence_at_line`:
it fires exactly when the 0-based line number is at least the total line
count of all statements. -/
theorem sentence_at_line_none_iff (ss : List String) (line : Nat) :
    sentence_at_line ss line = none ↔ cumLines ss ss.length ≤ line := by
  rw [sentence_at_line, sentence_at_line_aux_none_iff ss line 0 0 (Nat.zero_le _)]
  omega

theorem sentence_at_line_lt_length {ss : List String} {line k : Nat} {s : String}
    (h : sentence_at_line ss line = some (k, s)) : k < ss.length := by
  rw [sentence_at_line_some_iff] at h
  by_contra hle
  push_neg at hle
  obtain ⟨h1, h2, -⟩ := h
  have e1 := cumLines_of_length_le ss hle
  have e2 := cumLines_of_length_le ss (show ss.length ≤ k + 1 by omega)
  omega

/-! ## Diagnostics and error classification -/

/-- A diagnostic position; the code reads only `['start']['line']`. -/
structure DiagPos where
  line : Nat
  deriving DecidableEq

/-- A diagnostic source range; the code reads only `['start']`. -/
structure DiagRange where
  start : DiagPos
  deriving DecidableEq

/-- One entry of a `textDocument/publishDiagnostics` payload, with the
fields the code reads (`severity`, `range`, `message`).  Python
deduplicates entries by dict equality, modelled by `DecidableEq`. -/
structure Diagnostic where
  severity : Nat
  range : DiagRange
  message : String
  deriving DecidableEq

/-- One `textDocument/publishDiagnostics` notification: a document
version and the list of diagnostics reported for it. -/
structure DiagBatch where
  version : Nat
  diagnostics : List Diagnostic
  deriving DecidableEq

/-- The exception constructors of `coq_backend` that `_handleError` can
return: `CoqExn` for the two recognized recoverable message patterns,
`UnrecognizedError` otherwise. -/
inductive CoqException where
  | CoqExn (msg : String)
  | UnrecognizedError (msg : String)
  deriving DecidableEq

/-- Test that char list `n` is an initial segment of
`h` (helper for the substring and regex models). -/
def startsWithChars : List Char → List Char → Bool
  | [], _ => true
  | _ :: _, [] => false
  | a :: as, b :: bs => a == b && startsWithChars as bs

/-- Test that `n` occurs contiguously somewhere in `h`. -/
def charSub (n : List Char) : List Char → Bool
  | [] => startsWithChars n []
  | c :: cs => startsWithChars n (c :: cs) || charSub n cs

/-- Model of the Python substring test `needle in hay`. -/
def containsSub (hay needle : String) : Bool :=
  charSub needle.toList hay.toList

/-- The characters of Python's regex class `\s` (ASCII range). -/
def isSpaceChar (c : Char) : Bool :=
  c == ' ' || c == '\t' || c == '\n' || c == '\r' || c == '\x0b' || c == '\x0c'

/-- The literal tail of the reference-not-found pattern. -/
def refTailChars : List Char :=
  " was not found in the current environment.".toList

/-- Backtracking matcher for `\S*` followed by the literal tail: succeeds
iff the input can be split as (non-space characters) ++ `refTailChars`
++ anything (`re.match` only anchors at the start). -/
def matchMid : List Char → Bool
  | [] => startsWithChars refTailChars []
  | c :: rest => startsWithChars refTailChars (c :: rest) || (!isSpaceChar c && matchMid rest)

/-- Model of `re.match(r"The reference \S* was not found in the current
environment\.", msg)` viewed as a Boolean test. -/
def matchRefNotFound (msg : String) : Bool :=
  startsWithChars "The reference ".toList msg.toList
    && matchMid (msg.toList.drop "The reference ".length)

/-- The physical-path message pattern tested by substring containment. -/
def physPathMsg : String :=
  "Cannot find a physical path bound to logical path"

/-- The message-classification logic of `CoqLSPyInstance._handleError`
(lines 145-153): the two recognized patterns map to `CoqExn`, anything
else to `UnrecognizedError`. -/
def classifyError (msg : String) : CoqException :=
  if containsSub msg physPathMsg then CoqException.CoqExn msg
  else if matchRefNotFound msg then CoqException.CoqExn msg
  else CoqException.UnrecognizedError msg

/-- Model of `CoqLSPyInstance._handleError`: locate the sentence owning the
diagnostic's start line, truncate the sentence list to just before it,
and classify the message.  The `assert False` inside
`_sentence_at_line` is modelled as `none`. -/
def handleError (sentences : List String) (d : Diagnostic) :
    Option (List String × CoqException) :=
  match sentence_at_line sentences d.range.start.line with
  | none => none
  | some (sentenceNum, _) =>
    some (if sentenceNum < sentences.length
          then sentences.take sentenceNum else sentences,
          classifyError d.message)

/-- Inner loop of `_checkError` over one diagnostic batch: severe
(`severity < 2`) entries not already collected are appended; the code
asserts `error["version"] == self.doc_version` before appending
(failure modelled as `none`). -/
def collectBatch (ver docVersion : Nat) :
    List Diagnostic → List Diagnostic → Option (List Diagnostic)
  | [], acc => some acc
  | m :: ms, acc =>
    if m.severity < 2 ∧ m ∉ acc then
      if ver = docVersion then collectBatch ver docVersion ms (acc ++ [m])
      else none
    else collectBatch ver docVersion ms acc

/-- Outer drain loop of `_checkError`: batches tagged with a version
strictly older than the current document version are skipped entirely;
the rest feed `collectBatch`. -/
def collectSevere (docVersion : Nat) :
    List DiagBatch → List Diagnostic → Option (List Diagnostic)
  | [], acc => some acc
  | b :: bs, acc =>
    if b.version < docVersion then collectSevere docVersion bs acc
    else
      match collectBatch b.version docVersion b.diagnostics acc with
      | none => none
      | some acc' => collectSevere docVersion bs acc'

/-- The rollback part of `exceptions = [self._handleError(message) for
message in severe_errors]`: each call further truncates the sentence
list; only the resulting sentence list matters, since Python raises
`exceptions[0]`. -/
def rollbackAll (sentences : List String) : List Diagnostic → Option (List String)
  | [] => some sentences
  | d :: ds =>
    match handleError sentences d with
    | none => none
    | some (sentences', _) => rollbackAll sentences' ds

/-- The outcome of `_checkError`: an assertion failure, a normal return
(no severe diagnostics), or a raised classified exception together with
the rolled-back sentence list. -/
inductive CheckResult where
  | assertFail
  | ok (sentences : List String)
  | err (sentences : List String) (e : CoqException)
  deriving DecidableEq

/-- Model of `CoqLSPyInstance._checkError`, as a function of the current document
version, the current sentence list, and the queued diagnostic batches.
If severe entries remain after the drain, every one is passed to
`_handleError` (rolling the document back) and the classified exception
of the FIRST severe entry is raised. -/
def checkError (docVersion : Nat) (sentences : List String)
    (batches : List DiagBatch) : CheckResult :=
  match collectSevere docVersion batches [] with
  | none => CheckResult.assertFail
  | some [] => CheckResult.ok sentences
  | some (d :: ds) =>
    match handleError sentences d with
    | none => CheckResult.assertFail
    | some (sentences1, e) =>
      match rollbackAll sentences1 ds with
      | none => CheckResult.assertFail
      | some sentences' => CheckResult.err sentences' e

/-! ## Proof-context data model and goal-response parsing

`Obligation` and `ProofContext` live in `contexts.py`, which is not part
of the given sources; they are plain record types. -/

/-- Modelled from the spec: one proof goal, an ordered sequence of
rendered hypothesis lines and the goal's rendered type string
(`contexts.Obligation`, not in the given sources). -/
structure Obligation where
  hypotheses : List String
  goal : String
  deriving DecidableEq

/-- Modelled from the spec: the full state of an in-progress proof —
foreground goals, background goal stack, shelved goals, given-up goals
(`contexts.ProofContext`, not in the given sources). -/
structure ProofContext where
  fg_goals : List Obligation
  bg_goals : List Obligation
  shelved_goals : List Obligation
  given_up_goals : List Obligation
  deriving DecidableEq

/-- One hypothesis object of the `proof/goals` wire response:
`{names, ty}`. -/
structure HypObj where
  names : List String
  ty : String
  deriving DecidableEq

/-- One goal object of the `proof/goals` wire response:
`{hyps, ty}`. -/
structure GoalObj where
  hyps : List HypObj
  ty : String
  deriving DecidableEq

/-- The `goals` field of a `proof/goals` response: top-level goals, a
stack of focus-frames (each a list of sub-lists of goals), and the
shelf and given-up lists. -/
structure GoalsObj where
  goals : List GoalObj
  stack : List (List (List GoalObj))
  shelf : List GoalObj
  given_up : List GoalObj
  deriving DecidableEq

/-- A `proof/goals` response: the `goals` field is `null` when not
inside a proof. -/
structure GoalResponse where
  goals : Option GoalsObj
  deriving DecidableEq

/-- Model of `parseObligation`: renders each hypothesis as the comma-joined names
followed by `" : "` and the hypothesis type. -/
def parseObligation (o : GoalObj) : Obligation :=
  { hypotheses := o.hyps.map (fun h => pyJoin ", " h.names ++ " : " ++ h.ty),
    goal := o.ty }

/-- Model of `parseGoalResponse`: `None` when `goals` is `null`; otherwise a
`ProofContext` built from `goals`, the triple comprehension over
`stack`, `shelf` and `given_up`. -/
def parseGoalResponse (r : GoalResponse) : Option ProofContext :=
  match r.goals with
  | none => none
  | some g =>
    some { fg_goals := g.goals.map parseObligation,
           bg_goals := g.stack.flatMap (fun stack =>
             stack.flatMap (fun substack => substack.map parseObligation)),
           shelved_goals := g.shelf.map parseObligation,
           given_up_goals := g.given_up.map parseObligation }

/-! ## The backend state and its operations -/

/-- The document-related state of `CoqLSPyInstance`: `doc_version`,
`doc_sentences`, `state_dirty` and `cached_context`. -/
structure LspState where
  doc_version : Nat
  doc_sentences : List String
  state_dirty : Bool
  cached_context : Option ProofContext
  deriving DecidableEq

/-- Outgoing server interactions recorded by the model: a
`textDocument/didChange` notification carrying the new version and the
full document text, and a `proof/goals` request at a position. -/
inductive LspEvent where
  | didChange (version : Nat) (text : String)
  | goalsRequest (line : Nat) (character : Nat)
  deriving DecidableEq

/-- The version carried by a `didChange` event, if any. -/
def changeVersion : LspEvent → Option Nat
  | LspEvent.didChange v _ => some v
  | LspEvent.goalsRequest _ _ => none

/-- The versions of all `didChange` notifications in a trace. -/
def changeVersions (evs : List LspEvent) : List Nat :=
  evs.filterMap changeVersion

/-- Outcome of `getProofContext`: a normal return, a raised classified
exception, or an assertion failure; each records the events sent, and
the first two record the state left behind. -/
inductive GPCResult where
  | ret (ctx : Option ProofContext) (st : LspState) (events : List LspEvent)
  | raised (e : CoqException) (st : LspState) (events : List LspEvent)
  | assertFail (events : List LspEvent)
  deriving DecidableEq

/-- Model of `CoqLSPyInstance.getProofContext`, parameterized by the server's
goals response and the queued diagnostic batches.  The clean-cache path
returns the cached context with no events; the dirty path bumps the
version, sends the full joined document, requests goals at the end
position, parses, and runs `_checkError`; only if that returns normally
are the cache and dirty flag updated. -/
def getProofContext (st : LspState) (response : GoalResponse)
    (batches : List DiagBatch) : GPCResult :=
  if st.state_dirty = false then
    GPCResult.ret st.cached_context st []
  else
    let doc := pyJoin "\n" st.doc_sentences
    let v := st.doc_version + 1
    let line := (pySplitNl doc).length - 1
    let character := if doc.length > 0 then ((pySplitNl doc).getLastD "").length else 0
    let evs := [LspEvent.didChange v doc, LspEvent.goalsRequest line character]
    let parsed := parseGoalResponse response
    match checkError v st.doc_sentences batches with
    | CheckResult.assertFail => GPCResult.assertFail evs
    | CheckResult.ok ss =>
      GPCResult.ret parsed
        { doc_version := v, doc_sentences := ss,
          state_dirty := false, cached_context := parsed } evs
    | CheckResult.err ss e =>
      GPCResult.raised e
        { doc_version := v, doc_sentences := ss,
          state_dirty := st.state_dirty, cached_context := st.cached_context } evs

/-- Model of `CoqLSPyInstance.addStmt_noupdate`: append the statement with
newlines stripped from both ends (Python `stmt.strip("\n")`), and mark
the cache dirty.  No server interaction. -/
def addStmt_noupdate (st : LspState) (stmt : String) : LspState :=
  { st with doc_sentences := st.doc_sentences ++ [pyStripNl stmt],
            state_dirty := true }

/-- Model of `CoqLSPyInstance.cancelLastStmt`: pop the last statement and mark
dirty; popping an empty list raises (modelled as `none`). -/
def cancelLastStmt (st : LspState) : Option LspState :=
  match st.doc_sentences with
  | [] => none
  | _ :: _ => some { st with doc_sentences := st.doc_sentences.dropLast,
                             state_dirty := true }

/-- Model of `CoqLSPyInstance.resetCommandState`: bump the version, clear the
sentences, mark dirty. -/
def resetCommandState (st : LspState) : LspState :=
  { st with doc_version := st.doc_version + 1,
            doc_sentences := [],
            state_dirty := true }

/-- One caller-visible operation on the backend, with the server's
answers supplied as data for the query operation. -/
inductive Op where
  | add (stmt : String)
  | cancel
  | reset
  | query (response : GoalResponse) (batches : List DiagBatch)

/-- Run one operation: the events it sends, and the resulting state
(`none` when it aborts with an assertion/precondition failure; events
already sent before the failure are still recorded). -/
def runOp (st : LspState) : Op → List LspEvent × Option LspState
  | Op.add stmt => ([], some (addStmt_noupdate st stmt))
  | Op.cancel => ([], cancelLastStmt st)
  | Op.reset => ([], some (resetCommandState st))
  | Op.query r b =>
    match getProofContext st r b with
    | GPCResult.ret _ st' evs => (evs, some st')
    | GPCResult.raised _ st' evs => (evs, some st')
    | GPCResult.assertFail evs => (evs, none)

/-- Run a sequence of operations, concatenating the event traces. -/
def run (st : LspState) : List Op → List LspEvent × Option LspState
  | [] => ([], some st)
  | op :: ops =>
    match runOp st op with
    | (evs, none) => (evs, none)
    | (evs, some st') =>
      let r := run st' ops
      (evs ++ r.1, r.2)

/-! ## Helper lemmas -/

theorem sum_take_le (l : List Nat) (n : Nat) : (l.take n).sum ≤ l.sum := by
  induction l generalizing n with
  | nil => simp
  | cons a t ih =>
    cases n with
    | zero => simp
    | succ m =>
      simp only [List.take_succ_cons, List.sum_cons]
      exact Nat.add_le_add_left (ih m) a

theorem cumLines_mono (ss : List String) {k m : Nat} (h : k ≤ m) :
    cumLines ss k ≤ cumLines ss m := by
  unfold cumLines
  rw [show ss.take k = (ss.take m).take k by
    rw [List.take_take, Nat.min_eq_left h]]
  rw [List.map_take]
  exact sum_take_le _ _

theorem find?_range_eq_some {p : Nat → Bool} {n : Nat} : ∀ {k : Nat},
    (List.range n).find? p = some k ↔
      k < n ∧ p k = true ∧ ∀ j < k, p j = false := by
  induction n with
  | zero => intro k; simp
  | succ n ih =>
    intro k
    rw [List.range_succ, List.find?_append]
    cases h : (List.range n).find? p with
    | some k0 =>
      have hk0 := ih.mp h
      simp only [Option.or]
      constructor
      · rintro h'
        have : k0 = k := Option.some.inj h'
        subst this
        exact ⟨by omega, hk0.2.1, hk0.2.2⟩
      · rintro ⟨hkn, hpk, hmin⟩
        have : k0 = k := by
          rcases Nat.lt_trichotomy k0 k with hlt | heq | hgt
          · exact absurd hk0.2.1 (by simp [hmin k0 hlt])
          · exact heq
          · exact absurd hpk (by simp [hk0.2.2 k hgt])
        rw [this]
    | none =>
      have hall : ∀ j ∈ List.range n, ¬ p j = true := List.find?_eq_none.mp h
      simp only [Option.or]
      constructor
      · intro h'
        have hpn : p n = true ∧ n = k := by
          by_cases hp : p n = true
          · simp [List.find?, hp] at h'
            exact ⟨hp, h'⟩
          · have hpf : p n = false := by simpa using hp
            simp [List.find?, hpf] at h'
        rcases hpn with ⟨hp, rfl⟩
        refine ⟨by omega, hp, fun j hj => ?_⟩
        have := hall j (List.mem_range.mpr hj)
        simpa using this
      · rintro ⟨hkn, hpk, hmin⟩
        have hnk : n = k := by
          rcases Nat.lt_trichotomy n k with hlt | heq | hgt
          · omega
          · exact heq
          · exact absurd hpk (by
              have := hall k (List.mem_range.mpr hgt)
              simpa using this)
        subst hnk
        simp [List.find?, hpk]

/-! ## Claim C6: line ownership on the concrete example -/

/-- C6: for the statement sequence `["a\nb", "c"]`, the line-ownership
resolution maps lines 0 and 1 to statement index 0 and line 2 to
statement index 1. -/
theorem claim_C6 :
    sentence_at_line ["a\nb", "c"] 0 = some (0, "a\nb") ∧
    sentence_at_line ["a\nb", "c"] 1 = some (0, "a\nb") ∧
    sentence_at_line ["a\nb", "c"] 2 = some (1, "c") := by
  decide

/-! ## Claim C7: the line-ownership algorithm -/

/-- The internal newline count of a statement (`"a\nb"` has 1). -/
def newlineCount (s : String) : Nat :=
  s.toList.count '\n'

/-- Modelled from the spec (claim C7 wording): walk the statement
sequence accumulating each statement's internal NEWLINE-count, returning
the first statement whose cumulative count exceeds the queried line. -/
def newlineOwnerAux (line : Nat) : List String → Nat → Nat → Option (Nat × String)
  | [], _, _ => none
  | s :: rest, cum, idx =>
    let cum' := cum + newlineCount s
    if line < cum' then some (idx, s)
    else newlineOwnerAux line rest cum' (idx + 1)

/-- Modelled from the spec (claim C7 wording): the owner resolution
using internal newline-counts as the per-statement increment. -/
def newlineOwner (ss : List String) (line : Nat) : Option (Nat × String) :=
  newlineOwnerAux line ss 0 0

/-- Claim C7 exactly as stated: the code's `_sentence_at_line` agrees
with the newline-count walk, and the contract violation happens iff the
line exceeds the total accumulated newline count. -/
def claimC7Stated (ss : List String) (line : Nat) : Prop :=
  sentence_at_line ss line = newlineOwner ss line ∧
  (sentence_at_line ss line = none ↔ (ss.map newlineCount).sum < line)

/-- C7 counterexample: with the single statement `"a\nb"` and line 1
(its second line), `_sentence_at_line` returns statement 0, but the
newline-count walk of the claim yields no owner (cumulative newline
count 1 never exceeds 1), so the claim as stated fails. -/
theorem claim_C7_counterexample : ¬ claimC7Stated ["a\nb"] 1 := by
  unfold claimC7Stated
  decide

/-- The line-ownership resolution as amended: the first statement (in
index order) whose cumulative LINE count — one more than its internal
newline count per statement — exceeds the queried line. -/
def lineOwnerSpec (ss : List String) (line : Nat) : Option (Nat × String) :=
  match (List.range ss.length).find? (fun k => decide (line < cumLines ss (k + 1))) with
  | none => none
  | some k => some (k, ss.getD k "")

/-- C7 (amended): the owning statement is the first one whose cumulative
LINE count (one more than its internal newline count, per statement)
exceeds the diagnostic's 0-based line number, and the contract
violation (`assert False`) happens iff the line number is at least the
total accumulated line count of all statements. -/
theorem claim_C7_amended (ss : List String) (line : Nat) :
    sentence_at_line ss line = lineOwnerSpec ss line ∧
    (sentence_at_line ss line = none ↔ cumLines ss ss.length ≤ line) := by
  constructor
  · cases hsal : sentence_at_line ss line with
    | none =>
      have htot := (sentence_at_line_none_iff ss line).mp hsal
      unfold lineOwnerSpec
      have : (List.range ss.length).find? (fun k => decide (line < cumLines ss (k + 1))) = none := by
        rw [List.find?_eq_none]
        intro k hk
        have hk' : k < ss.length := List.mem_range.mp hk
        have : cumLines ss (k + 1) ≤ cumLines ss ss.length := cumLines_mono ss (by omega)
        simp only [decide_eq_true_eq]
        omega
      rw [this]
    | some res =>
      obtain ⟨k, s⟩ := res
      have hch := (sentence_at_line_some_iff ss line k s).mp hsal
      have hklen : k < ss.length := sentence_at_line_lt_length hsal
      unfold lineOwnerSpec
      have : (List.range ss.length).find? (fun k => decide (line < cumLines ss (k + 1))) = some k := by
        rw [find?_range_eq_some]
        refine ⟨hklen, by simpa using hch.2.1, fun j hj => ?_⟩
        have : cumLines ss (j + 1) ≤ cumLines ss k := cumLines_mono ss (by omega)
        simp only [decide_eq_false_iff_not]
        omega
      rw [this, ← hch.2.2]
  · exact sentence_at_line_none_iff ss line

/-- C7 (amended) witness: concrete instance of the amended
characterization, with the existential resolution evaluated. -/
theorem claim_C7_amended_witness :
    sentence_at_line ["a\nb", "c"] 2 = lineOwnerSpec ["a\nb", "c"] 2 ∧
    (sentence_at_line ["a\nb", "c"] 3 = none ↔ cumLines ["a\nb", "c"] 2 ≤ 3) := by
  constructor
  · exact (claim_C7_amended ["a\nb", "c"] 2).1
  · have h := (claim_C7_amended ["a\nb", "c"] 3).2
    simpa using h

/-! ## Claim C1: rollback exactness -/

/-- C1: when a severe diagnostic tagged with the current document
version reports a start line lying inside the 0-based statement `i`
(i.e. between the cumulative line counts before and after it), the error
check truncates the local statement sequence to exactly the first `i`
statements and raises the classified error of that diagnostic. -/
theorem claim_C1 (docVersion : Nat) (ss : List String) (d : Diagnostic) (i : Nat)
    (hsev : d.severity < 2)
    (hlo : cumLines ss i ≤ d.range.start.line)
    (hhi : d.range.start.line < cumLines ss (i + 1)) :
    checkError docVersion ss [{ version := docVersion, diagnostics := [d] }] =
      CheckResult.err (ss.take i) (classifyError d.message) := by
  have hsal : sentence_at_line ss d.range.start.line = some (i, ss.getD i "") :=
    (sentence_at_line_some_iff ss _ i _).mpr ⟨hlo, hhi, rfl⟩
  have hilen : i < ss.length := sentence_at_line_lt_length hsal
  simp [checkError, collectSevere, collectBatch, handleError, rollbackAll,
        hsal, hsev, hilen]

/-- C1 witness: a 3-statement document `["a\nb", "c", "d"]` with a
severe diagnostic on line 2 (inside the second statement) is truncated
to exactly the first statement. -/
theorem claim_C1_witness :
    checkError 5 ["a\nb", "c", "d"]
      [{ version := 5,
         diagnostics := [{ severity := 1, range := ⟨⟨2⟩⟩, message := "boom" }] }] =
      CheckResult.err (["a\nb", "c", "d"].take 1) (classifyError "boom") :=
  claim_C1 5 ["a\nb", "c", "d"] { severity := 1, range := ⟨⟨2⟩⟩, message := "boom" } 1
    (by decide) (by decide) (by decide)

/-! ## Claim C2: stale-diagnostic immunity -/

theorem collectSevere_stale_skip (docVersion : Nat) (b : DiagBatch)
    (hb : b.version < docVersion) :
    ∀ (pre post : List DiagBatch) (acc : List Diagnostic),
    collectSevere docVersion (pre ++ b :: post) acc =
      collectSevere docVersion (pre ++ post) acc := by
  intro pre
  induction pre with
  | nil =>
    intro post acc
    simp [collectSevere, hb]
  | cons p pre' ih =>
    intro post acc
    simp only [List.cons_append, collectSevere]
    by_cases hp : p.version < docVersion
    · simp only [if_pos hp]
      exact ih post acc
    · simp only [if_neg hp]
      cases collectBatch p.version docVersion p.diagnostics acc with
      | none => rfl
      | some acc' => exact ih post acc'

/-- C2: a diagnostic batch whose tagged version is strictly older than
the current document version is discarded by the drain: deleting it
from the queue does not change the outcome of the error check at all
(no error, no rollback), regardless of the severities it contains. -/
theorem claim_C2 (docVersion : Nat) (ss : List String)
    (pre post : List DiagBatch) (b : DiagBatch)
    (hstale : b.version < docVersion) :
    checkError docVersion ss (pre ++ b :: post) =
      checkError docVersion ss (pre ++ post) := by
  unfold checkError
  rw [collectSevere_stale_skip docVersion b hstale pre post []]

/-- C2 witness: a stale batch full of severe diagnostics (version 1
against document version 2) changes nothing. -/
theorem claim_C2_witness :
    checkError 2 ["a"]
      [{ version := 1,
         diagnostics := [{ severity := 1, range := ⟨⟨0⟩⟩, message := "boom" }] }] =
      checkError 2 ["a"] [] :=
  claim_C2 2 ["a"] [] []
    { version := 1,
      diagnostics := [{ severity := 1, range := ⟨⟨0⟩⟩, message := "boom" }] }
    (by decide)

/-! ## Claim C3: error classification and raise -/

/-- C3: if the drain leaves no severe entry the check returns normally;
if severe entries remain (and no internal assertion fires) the check
raises the classified error of the FIRST severe entry; classification
maps the physical-path pattern and the reference-not-found pattern to
`CoqExn` and everything else to `UnrecognizedError`. -/
theorem claim_C3 (docVersion : Nat) (ss : List String) (batches : List DiagBatch)
    (hnoassert : checkError docVersion ss batches ≠ CheckResult.assertFail) :
    (collectSevere docVersion batches [] = some [] →
      checkError docVersion ss batches = CheckResult.ok ss) ∧
    (∀ d ds, collectSevere docVersion batches [] = some (d :: ds) →
      ∃ ss', checkError docVersion ss batches =
        CheckResult.err ss' (classifyError d.message)) ∧
    (∀ msg, (containsSub msg physPathMsg = true ∨ matchRefNotFound msg = true) →
      classifyError msg = CoqException.CoqExn msg) ∧
    (∀ msg, containsSub msg physPathMsg = false → matchRefNotFound msg = false →
      classifyError msg = CoqException.UnrecognizedError msg) := by
  refine ⟨?_, ?_, ?_, ?_⟩
  · intro h
    simp [checkError, h]
  · intro d ds h
    simp only [checkError, h] at hnoassert ⊢
    cases hhe : handleError ss d with
    | none => simp [hhe] at hnoassert
    | some res =>
      obtain ⟨ss1, e⟩ := res
      have he : e = classifyError d.message := by
        unfold handleError at hhe
        cases hsal : sentence_at_line ss d.range.start.line with
        | none => rw [hsal] at hhe; exact absurd hhe (by simp)
        | some r =>
          rw [hsal] at hhe
          exact ((Prod.mk.injEq _ _ _ _).mp (Option.some.inj hhe)).2.symm
      subst he
      simp only [hhe] at hnoassert ⊢
      cases hrb : rollbackAll ss1 ds with
      | none => simp [hrb] at hnoassert
      | some ss2 =>
        simp only [hrb] at hnoassert ⊢
        exact ⟨ss2, rfl⟩
  · intro msg h
    rcases h with h | h
    · simp [classifyError, h]
    · by_cases hc : containsSub msg physPathMsg <;> simp [classifyError, hc, h]
  · intro msg h1 h2
    simp [classifyError, h1, h2]

/-- C3 witness: one severe unclassifiable diagnostic at the current
version raises `UnrecognizedError`. -/
theorem claim_C3_witness :
    ∃ ss', checkError 1 ["a"]
      [{ version := 1,
         diagnostics := [{ severity := 1, range := ⟨⟨0⟩⟩, message := "boom" }] }] =
      CheckResult.err ss' (classifyError "boom") :=
  (claim_C3 1 ["a"]
      [{ version := 1,
         diagnostics := [{ severity := 1, range := ⟨⟨0⟩⟩, message := "boom" }] }]
      (by decide)).2.1
    { severity := 1, range := ⟨⟨0⟩⟩, message := "boom" } [] (by decide)

/-! ## Claim C10: the version assertion on newer-than-current batches -/

theorem collectBatch_ver_ne_none {ver docVersion : Nat} (hne : ver ≠ docVersion) :
    ∀ (ms : List Diagnostic) (acc : List Diagnostic),
    (∃ d ∈ ms, d.severity < 2 ∧ d ∉ acc) →
    collectBatch ver docVersion ms acc = none := by
  intro ms
  induction ms with
  | nil => rintro acc ⟨d, hd, -⟩; exact absurd hd (List.not_mem_nil d)
  | cons m ms' ih =>
    rintro acc ⟨d, hd, hdsev, hdacc⟩
    by_cases hm : m.severity < 2 ∧ m ∉ acc
    · simp [collectBatch, hm, hne]
    · simp only [collectBatch, if_neg hm]
      rcases List.mem_cons.mp hd with rfl | hd'
      · exact absurd ⟨hdsev, hdacc⟩ hm
      · exact ih acc ⟨d, hd', hdsev, hdacc⟩

theorem collectBatch_mem {ver docVersion : Nat} :
    ∀ (ms acc acc' : List Diagnostic),
    collectBatch ver docVersion ms acc = some acc' →
    ∀ m ∈ acc', m ∈ acc ∨ (ver = docVersion ∧ m ∈ ms) := by
  intro ms
  induction ms with
  | nil =>
    intro acc acc' h m hm
    simp only [collectBatch] at h
    exact Or.inl (Option.some.inj h ▸ hm)
  | cons x ms' ih =>
    intro acc acc' h m hm
    by_cases hx : x.severity < 2 ∧ x ∉ acc
    · simp only [collectBatch, if_pos hx] at h
      by_cases hv : ver = docVersion
      · rw [if_pos hv] at h
        rcases ih (acc ++ [x]) acc' h m hm with hacc | hrest
        · rcases List.mem_append.mp hacc with ha | hb
          · exact Or.inl ha
          · exact Or.inr ⟨hv, by simp [List.mem_singleton.mp hb]⟩
        · exact Or.inr ⟨hrest.1, List.mem_cons_of_mem x hrest.2⟩
      · rw [if_neg hv] at h
        exact absurd h (by simp)
    · simp only [collectBatch, if_neg hx] at h
      rcases ih acc acc' h m hm with hacc | hrest
      · exact Or.inl hacc
      · exact Or.inr ⟨hrest.1, List.mem_cons_of_mem x hrest.2⟩

theorem collectSevere_mem {docVersion : Nat} :
    ∀ (batches : List DiagBatch) (acc l : List Diagnostic),
    collectSevere docVersion batches acc = some l →
    ∀ m ∈ l, m ∈ acc ∨ ∃ b ∈ batches, b.version = docVersion ∧ m ∈ b.diagnostics := by
  intro batches
  induction batches with
  | nil =>
    intro acc l h m hm
    simp only [collectSevere] at h
    exact Or.inl (Option.some.inj h ▸ hm)
  | cons b bs ih =>
    intro acc l h m hm
    by_cases hb : b.version < docVersion
    · simp only [collectSevere, if_pos hb] at h
      rcases ih acc l h m hm with hacc | ⟨b2, hb2, hv, hmem⟩
      · exact Or.inl hacc
      · exact Or.inr ⟨b2, List.mem_cons_of_mem b hb2, hv, hmem⟩
    · simp only [collectSevere, if_neg hb] at h
      cases hcb : collectBatch b.version docVersion b.diagnostics acc with
      | none => rw [hcb] at h; exact absurd h (by simp)
      | some acc1 =>
        rw [hcb] at h
        rcases ih acc1 l h m hm with hacc | ⟨b2, hb2, hv, hmem⟩
        · rcases collectBatch_mem b.diagnostics acc acc1 hcb m hacc with ha | ⟨hv, hmem⟩
          · exact Or.inl ha
          · exact Or.inr ⟨b, List.mem_cons_self b bs, hv, hmem⟩
        · exact Or.inr ⟨b2, List.mem_cons_of_mem b hb2, hv, hmem⟩

/-- C10 (implicit): every severe entry the drain collects comes from a
batch tagged with exactly the current document version; and a batch
tagged with a version strictly GREATER than the current one that
contains a severe entry makes the check fail its internal assertion
instead of classifying, raising, or discarding it. -/
theorem claim_C10 (docVersion : Nat) (ss : List String) (b : DiagBatch)
    (hver : docVersion < b.version)
    (hsev : ∃ d ∈ b.diagnostics, d.severity < 2) :
    checkError docVersion ss [b] = CheckResult.assertFail ∧
    (∀ (batches : List DiagBatch) (l : List Diagnostic),
      collectSevere docVersion batches [] = some l →
      ∀ m ∈ l, ∃ b' ∈ batches, b'.version = docVersion ∧ m ∈ b'.diagnostics) := by
  constructor
  · have hne : b.version ≠ docVersion := by omega
    have hnb : ¬ b.version < docVersion := by omega
    obtain ⟨d, hd, hdsev⟩ := hsev
    have hcb : collectBatch b.version docVersion b.diagnostics [] = none :=
      collectBatch_ver_ne_none hne b.diagnostics []
        ⟨d, hd, hdsev, List.not_mem_nil d⟩
    simp [checkError, collectSevere, hnb, hcb]
  · intro batches l h m hm
    rcases collectSevere_mem batches [] l h m hm with ha | hb'
    · exact absurd ha (List.not_mem_nil m)
    · exact hb'

/-- C10 witness: a severe diagnostic in a batch tagged version 2, while
the document is at version 1, trips the assertion. -/
theorem claim_C10_witness :
    checkError 1 []
      [{ version := 2,
         diagnostics := [{ severity := 1, range := ⟨⟨0⟩⟩, message := "x" }] }] =
      CheckResult.assertFail :=
  (claim_C10 1 []
      { version := 2,
        diagnostics := [{ severity := 1, range := ⟨⟨0⟩⟩, message := "x" }] }
      (by decide) (by decide)).1

/-! ## Claim C4: cache idempotence of `getProofContext` -/

/-- C4: with a clean cache, `getProofContext` returns the cached context
with no server interaction at all (no `didChange`, no goals request, no
version bump — the state is untouched); and after any successful call,
a second call (with arbitrary pending server data) performs no round
trip and returns the same value. -/
theorem claim_C4 (st : LspState) (r r2 : GoalResponse) (b b2 : List DiagBatch) :
    (st.state_dirty = false →
      getProofContext st r b = GPCResult.ret st.cached_context st []) ∧
    (∀ ctx st' evs, getProofContext st r b = GPCResult.ret ctx st' evs →
      getProofContext st' r2 b2 = GPCResult.ret ctx st' []) := by
  constructor
  · intro h
    simp [getProofContext, h]
  · intro ctx st' evs h
    by_cases hd : st.state_dirty = false
    · simp only [getProofContext, hd, if_pos rfl] at h
      obtain ⟨h1, h2, h3⟩ := (GPCResult.ret.injEq _ _ _ _ _ _).mp h
      subst h1; subst h2
      simp [getProofContext, hd]
    · simp only [getProofContext, if_neg hd] at h
      cases hC : checkError (st.doc_version + 1) st.doc_sentences b with
      | assertFail => rw [hC] at h; exact absurd h (by simp)
      | err ss e => rw [hC] at h; exact absurd h (by simp)
      | ok ss =>
        rw [hC] at h
        obtain ⟨h1, h2, h3⟩ := (GPCResult.ret.injEq _ _ _ _ _ _).mp h
        subst h1; subst h2
        simp [getProofContext]

/-- C4 witness: a dirty one-statement document is synchronized once; the
second call answers from the cache with no events. -/
theorem claim_C4_witness :
    getProofContext
        { doc_version := 2, doc_sentences := ["a"],
          state_dirty := false, cached_context := none }
        { goals := none } [] =
      GPCResult.ret none
        { doc_version := 2, doc_sentences := ["a"],
          state_dirty := false, cached_context := none } [] :=
  (claim_C4 { doc_version := 1, doc_sentences := ["a"],
              state_dirty := true, cached_context := none }
      { goals := none } { goals := none } [] []).2
    none
    { doc_version := 2, doc_sentences := ["a"],
      state_dirty := false, cached_context := none }
    [LspEvent.didChange 2 "a", LspEvent.goalsRequest 0 1]
    (by decide)

/-! ## Claim C8: append semantics of `addStmt_noupdate` -/

/-- Claim C8 exactly as stated: append strips ONLY trailing newline
characters (leading newlines untouched). -/
def claimC8Stated (st : LspState) (stmt : String) : Prop :=
  addStmt_noupdate st stmt =
    { st with doc_sentences := st.doc_sentences ++ [pyRstripNl stmt],
              state_dirty := true }

/-- C8 counterexample: for the statement `"\nIdtac."` the code appends
`"Idtac."` — Python `strip("\n")` removes the LEADING newline too — not
the `"\nIdtac."` the claim promises. -/
theorem claim_C8_counterexample :
    ¬ claimC8Stated
      { doc_version := 1, doc_sentences := [],
        state_dirty := true, cached_context := none } "\nIdtac." := by
  unfold claimC8Stated
  decide

/-- C8 (amended): `addStmt_noupdate` appends the statement with newline
characters stripped from BOTH ends (everything else, internal newlines
included, untouched), marks the cache dirty, leaves the version alone,
and contacts no server (its event trace is empty). -/
theorem claim_C8_amended (st : LspState) (stmt : String) :
    addStmt_noupdate st stmt =
      { st with doc_sentences := st.doc_sentences ++ [pyStripNl stmt],
                state_dirty := true } ∧
    (addStmt_noupdate st stmt).doc_version = st.doc_version ∧
    runOp st (Op.add stmt) = ([], some (addStmt_noupdate st stmt)) := by
  refine ⟨rfl, rfl, rfl⟩

/-! ## Claim C9: goal-response parsing -/

theorem flatMap_flatten_map (L : List (List (List GoalObj))) :
    L.flatMap (fun stack => stack.flatMap (fun substack => substack.map parseObligation)) =
      ((L.map (fun frame => frame.flatten)).flatten).map parseObligation := by
  induction L with
  | nil => simp
  | cons hd tl ih =>
    simp only [List.flatMap_cons, List.map_cons, List.flatten_cons, List.map_append, ih]
    congr 1
    simp [List.flatMap_def, List.map_flatten]

/-- C9: `parseGoalResponse` is `none` exactly when the response's
`goals` field is null; otherwise the foreground is the top-level goals
list in order, the background is the in-order flattening of all
sub-lists of all focus-frames of the stack, shelved and given-up map
directly, and each goal renders a hypothesis as the comma-joined names
followed by `" : "` and the hypothesis type. -/
theorem claim_C9 (r : GoalResponse) :
    parseGoalResponse r = r.goals.map (fun g =>
      { fg_goals := g.goals.map parseObligation,
        bg_goals := ((g.stack.map (fun frame => frame.flatten)).flatten).map parseObligation,
        shelved_goals := g.shelf.map parseObligation,
        given_up_goals := g.given_up.map parseObligation }) ∧
    (parseGoalResponse r = none ↔ r.goals = none) ∧
    (∀ o, (parseObligation o).hypotheses =
        o.hyps.map (fun h => pyJoin ", " h.names ++ " : " ++ h.ty) ∧
      (parseObligation o).goal = o.ty) := by
  refine ⟨?_, ?_, fun o => ⟨rfl, rfl⟩⟩
  · cases hg : r.goals with
    | none => simp [parseGoalResponse, hg]
    | some g =>
      simp only [parseGoalResponse, hg, Option.map_some]
      rw [flatMap_flatten_map]
      rfl
  · cases hg : r.goals with
    | none => simp [parseGoalResponse, hg]
    | some g => simp [parseGoalResponse, hg]

/-- C9 witness: a concrete two-frame stack response flattens in order
into the background sequence, and hypothesis lines render as
comma-joined names with the type. -/
theorem claim_C9_witness :
    parseGoalResponse
      { goals := some {
          goals := [{ hyps := [{ names := ["n", "m"], ty := "nat" }], ty := "n = m" }],
          stack := [ [ [{ hyps := [], ty := "A" }], [{ hyps := [], ty := "B" }] ],
                     [ [{ hyps := [], ty := "C" }] ] ],
          shelf := [], given_up := [] } } =
      some
        { fg_goals := [{ hypotheses := ["n, m : nat"], goal := "n = m" }],
          bg_goals := [{ hypotheses := [], goal := "A" },
                       { hypotheses := [], goal := "B" },
                       { hypotheses := [], goal := "C" }],
          shelved_goals := [], given_up_goals := [] } := by
  have h := (claim_C9
    { goals := some {
        goals := [{ hyps := [{ names := ["n", "m"], ty := "nat" }], ty := "n = m" }],
        stack := [ [ [{ hyps := [], ty := "A" }], [{ hyps := [], ty := "B" }] ],
                   [ [{ hyps := [], ty := "C" }] ] ],
        shelf := [], given_up := [] } }).1
  rw [h]
  decide

/-! ## Claim C5: version monotonicity -/

/-- The events sent during a `getProofContext` call. -/
def gpcEvents : GPCResult → List LspEvent
  | GPCResult.ret _ _ evs => evs
  | GPCResult.raised _ _ evs => evs
  | GPCResult.assertFail evs => evs

/-- The state left behind by a `getProofContext` call (`none` when the
call dies on an assertion). -/
def gpcState : GPCResult → Option LspState
  | GPCResult.ret _ st _ => some st
  | GPCResult.raised _ st _ => some st
  | GPCResult.assertFail _ => none

theorem runOp_query (st : LspState) (r : GoalResponse) (b : List DiagBatch) :
    runOp st (Op.query r b) =
      (gpcEvents (getProofContext st r b), gpcState (getProofContext st r b)) := by
  simp only [runOp]
  cases getProofContext st r b <;> rfl

/-- On the dirty path, `getProofContext` first sends a `didChange`
carrying version `doc_version + 1` and the full joined document text;
that is the only `didChange` of the call, and any state the call leaves
behind carries exactly that version. -/
theorem getProofContext_dirty (st : LspState) (r : GoalResponse) (b : List DiagBatch)
    (hd : st.state_dirty = true) :
    (gpcEvents (getProofContext st r b)).head? =
      some (LspEvent.didChange (st.doc_version + 1) (pyJoin "\n" st.doc_sentences)) ∧
    changeVersions (gpcEvents (getProofContext st r b)) = [st.doc_version + 1] ∧
    ∀ st2, gpcState (getProofContext st r b) = some st2 →
      st2.doc_version = st.doc_version + 1 := by
  cases hC : checkError (st.doc_version + 1) st.doc_sentences b with
  | assertFail =>
    refine ⟨?_, ?_, ?_⟩
    · simp [getProofContext, hd, hC, gpcEvents]
    · simp [getProofContext, hd, hC, gpcEvents, changeVersions, changeVersion]
    · intro st2 h2
      simp [getProofContext, hd, hC, gpcState] at h2
  | ok ss2 =>
    refine ⟨?_, ?_, ?_⟩
    · simp [getProofContext, hd, hC, gpcEvents]
    · simp [getProofContext, hd, hC, gpcEvents, changeVersions, changeVersion]
    · intro st2 h2
      obtain ⟨a, sl, dirt, cc⟩ := st2
      simp [getProofContext, hd, hC, gpcState, LspState.mk.injEq] at h2 ⊢
      omega
  | err ss2 e =>
    refine ⟨?_, ?_, ?_⟩
    · simp [getProofContext, hd, hC, gpcEvents]
    · simp [getProofContext, hd, hC, gpcEvents, changeVersions, changeVersion]
    · intro st2 h2
      obtain ⟨a, sl, dirt, cc⟩ := st2
      simp [getProofContext, hd, hC, gpcState, LspState.mk.injEq] at h2 ⊢
      omega

theorem runOp_version_facts (st : LspState) (op : Op) :
    List.Pairwise (· < ·) (changeVersions (runOp st op).1) ∧
    (∀ v ∈ changeVersions (runOp st op).1, st.doc_version < v) ∧
    (∀ st2, (runOp st op).2 = some st2 →
      st.doc_version ≤ st2.doc_version ∧
      ∀ v ∈ changeVersions (runOp st op).1, v ≤ st2.doc_version) := by
  cases op with
  | add stmt =>
    refine ⟨by simp [runOp, changeVersions], by simp [runOp, changeVersions], ?_⟩
    intro st2 h2
    obtain rfl := Option.some.inj (by simpa [runOp] using h2)
    simp [runOp, changeVersions, addStmt_noupdate]
  | cancel =>
    cases hds : st.doc_sentences with
    | nil =>
      have hro : runOp st Op.cancel = ([], none) := by
        simp [runOp, cancelLastStmt, hds]
      rw [hro]
      refine ⟨by simp [changeVersions], by simp [changeVersions], ?_⟩
      intro st2 h2
      simp at h2
    | cons a l =>
      have hro : runOp st Op.cancel =
          ([], some { st with doc_sentences := st.doc_sentences.dropLast,
                              state_dirty := true }) := by
        simp [runOp, cancelLastStmt, hds]
      rw [hro]
      refine ⟨by simp [changeVersions], by simp [changeVersions], ?_⟩
      intro st2 h2
      obtain rfl := Option.some.inj (by simpa using h2)
      simp [changeVersions]
  | reset =>
    refine ⟨by simp [runOp, changeVersions], by simp [runOp, changeVersions], ?_⟩
    intro st2 h2
    obtain rfl := Option.some.inj (by simpa [runOp] using h2)
    simp [runOp, changeVersions, resetCommandState]
  | query r b =>
    rw [runOp_query]
    by_cases hd : st.state_dirty = false
    · have hg : getProofContext st r b = GPCResult.ret st.cached_context st [] := by
        simp [getProofContext, hd]
      rw [hg]
      refine ⟨by simp [gpcEvents, changeVersions], by simp [gpcEvents, changeVersions], ?_⟩
      intro st2 h2
      obtain rfl := Option.some.inj (by simpa [gpcState] using h2)
      simp [gpcEvents, changeVersions]
    · have hd' : st.state_dirty = true := by
        cases h : st.state_dirty
        · exact absurd h hd
        · rfl
      obtain ⟨h1, h2, h3⟩ := getProofContext_dirty st r b hd'
      rw [h2]
      refine ⟨by simp, ?_, ?_⟩
      · intro v hv
        have : v = st.doc_version + 1 := by simpa using hv
        omega
      · intro st2 hst2
        have hv2 := h3 st2 (by simpa using hst2)
        refine ⟨by omega, ?_⟩
        intro v hv
        have : v = st.doc_version + 1 := by simpa using hv
        omega

theorem run_version_facts (ops : List Op) : ∀ st : LspState,
    List.Pairwise (· < ·) (changeVersions (run st ops).1) ∧
    (∀ v ∈ changeVersions (run st ops).1, st.doc_version < v) ∧
    (∀ st2, (run st ops).2 = some st2 →
      st.doc_version ≤ st2.doc_version ∧
      ∀ v ∈ changeVersions (run st ops).1, v ≤ st2.doc_version) := by
  induction ops with
  | nil =>
    intro st
    refine ⟨by simp [run, changeVersions], by simp [run, changeVersions], ?_⟩
    intro st2 h2
    obtain rfl := Option.some.inj (by simpa [run] using h2)
    simp [run, changeVersions]
  | cons op ops ih =>
    intro st
    obtain ⟨hop1, hop2, hop3⟩ := runOp_version_facts st op
    cases hro : runOp st op with
    | mk evs o =>
      simp only [hro] at hop1 hop2 hop3
      cases o with
      | none =>
        have hrun : run st (op :: ops) = (evs, none) := by
          simp [run, hro]
        rw [hrun]
        refine ⟨hop1, hop2, ?_⟩
        intro st2 h2
        simp at h2
      | some st1 =>
        have hrun : run st (op :: ops) = (evs ++ (run st1 ops).1, (run st1 ops).2) := by
          simp [run, hro]
        obtain ⟨ih1, ih2, ih3⟩ := ih st1
        have hst1 : st.doc_version ≤ st1.doc_version ∧
            ∀ v ∈ changeVersions evs, v ≤ st1.doc_version := hop3 st1 (by simp)
        rw [hrun]
        have happ : changeVersions (evs ++ (run st1 ops).1) =
            changeVersions evs ++ changeVersions (run st1 ops).1 :=
          List.filterMap_append _ _ _
        refine ⟨?_, ?_, ?_⟩
        · rw [happ, List.pairwise_append]
          exact ⟨hop1, ih1, fun a ha b2 hb2 =>
            lt_of_le_of_lt (hst1.2 a ha) (ih2 b2 hb2)⟩
        · intro v hv
          rcases List.mem_append.mp (happ ▸ hv) with hmem | hmem
          · exact hop2 v hmem
          · exact lt_of_le_of_lt hst1.1 (ih2 v hmem)
        · intro st2 h2
          have h3 := ih3 st2 h2
          refine ⟨le_trans hst1.1 h3.1, ?_⟩
          intro v hv
          rcases List.mem_append.mp (happ ▸ hv) with hmem | hmem
          · exact le_trans (hst1.2 v hmem) h3.1
          · exact h3.2 v hmem

/-- C5: a dirty-path `getProofContext` call increments the document
version by exactly 1 and its FIRST outgoing message is the `didChange`
notification carrying the new version and the full joined document
text; `resetCommandState` also increments the version by exactly 1; and
over any operation sequence, no two `didChange` notifications ever
carry the same version. -/
theorem claim_C5 (st : LspState) (r : GoalResponse) (b : List DiagBatch) (ops : List Op) :
    (st.state_dirty = true →
      (gpcEvents (getProofContext st r b)).head? =
        some (LspEvent.didChange (st.doc_version + 1) (pyJoin "\n" st.doc_sentences)) ∧
      ∀ st2, gpcState (getProofContext st r b) = some st2 →
        st2.doc_version = st.doc_version + 1) ∧
    (resetCommandState st).doc_version = st.doc_version + 1 ∧
    List.Pairwise (fun a b2 => a ≠ b2) (changeVersions (run st ops).1) := by
  refine ⟨?_, rfl, ?_⟩
  · intro hd
    obtain ⟨h1, h2, h3⟩ := getProofContext_dirty st r b hd
    exact ⟨h1, h3⟩
  · exact ((run_version_facts ops st).1).imp (fun h => Nat.ne_of_lt h)

/-- C5 witness: a dirty single-statement document at version 1 sends its
`didChange` tagged with version 2 first. -/
theorem claim_C5_witness :
    (gpcEvents (getProofContext
        { doc_version := 1, doc_sentences := ["a"],
          state_dirty := true, cached_context := none }
        { goals := none } [])).head? =
      some (LspEvent.didChange 2 (pyJoin "\n" ["a"])) :=
  ((claim_C5
      { doc_version := 1, doc_sentences := ["a"],
        state_dirty := true, cached_context := none }
      { goals := none } [] []).1 rfl).1

end CoqLspy
